import Mathlib

/-!
Verification of the synthetic licence-plate image generator (`gen2.py`).

The stochastic functions of the source draw from Python's global random
source.  Here every random draw is an explicit real argument in the unit
interval (`us`, `ur`, `up`, `uy`, `utx`, `uty`, ...), and
`random.uniform a b` becomes `a + (b - a) * u`.  Machine floats are
modelled by real numbers; image pixel grids by functions `ℕ → ℕ → ℝ`;
the external OpenCV warp and resize operations are abstract function
parameters.
-/

open Real

/-- Python `random.uniform a b` with unit sample `u`: `a + (b - a) * u`. -/
noncomputable def pyUniform (a b u : ℝ) : ℝ := a + (b - a) * u

/-- `euler_to_mat` of `gen2.py`: builds the Y-axis rotation, then
left-multiplies by the X-axis rotation, then by the Z-axis rotation. -/
noncomputable def euler_to_mat (yaw pitch roll : ℝ) : Matrix (Fin 3) (Fin 3) ℝ :=
  let M1 := !![Real.cos yaw, 0, Real.sin yaw;
               0, 1, 0;
               -Real.sin yaw, 0, Real.cos yaw]
  let M2 := !![1, 0, 0;
               0, Real.cos pitch, -Real.sin pitch;
               0, Real.sin pitch, Real.cos pitch] * M1
  !![Real.cos roll, -Real.sin roll, 0;
     Real.sin roll, Real.cos roll, 0;
     0, 0, 1] * M2

/-- Standard right-handed rotation about the X axis (spec wording). -/
noncomputable def rotXStd (t : ℝ) : Matrix (Fin 3) (Fin 3) ℝ :=
  !![1, 0, 0;
     0, Real.cos t, -Real.sin t;
     0, Real.sin t, Real.cos t]

/-- Standard right-handed rotation about the Y axis (spec wording). -/
noncomputable def rotYStd (t : ℝ) : Matrix (Fin 3) (Fin 3) ℝ :=
  !![Real.cos t, 0, Real.sin t;
     0, 1, 0;
     -Real.sin t, 0, Real.cos t]

/-- Standard right-handed rotation about the Z axis (spec wording). -/
noncomputable def rotZStd (t : ℝ) : Matrix (Fin 3) (Fin 3) ℝ :=
  !![Real.cos t, -Real.sin t, 0;
     Real.sin t, Real.cos t, 0;
     0, 0, 1]

/-- The scale sample of `make_affine_transform`:
`random.uniform (mid - hw * scale_variation) (mid + hw * scale_variation)`
with `mid = (min_scale + max_scale) * 0.5` and
`hw = (max_scale - min_scale) * 0.5`. -/
noncomputable def sampled_scale (min_scale max_scale scale_variation us : ℝ) : ℝ :=
  pyUniform ((min_scale + max_scale) * 0.5 - (max_scale - min_scale) * 0.5 * scale_variation)
            ((min_scale + max_scale) * 0.5 + (max_scale - min_scale) * 0.5 * scale_variation)
            us

/-- `roll = random.uniform (-0.5) 0.5 * rotation_variation`. -/
noncomputable def sampled_roll (rotation_variation ur : ℝ) : ℝ :=
  pyUniform (-0.5) 0.5 ur * rotation_variation

/-- `pitch = random.uniform (-0.4) 0.4 * rotation_variation`. -/
noncomputable def sampled_pitch (rotation_variation up : ℝ) : ℝ :=
  pyUniform (-0.4) 0.4 up * rotation_variation

/-- `yaw = random.uniform (-1.2) 1.2 * rotation_variation`. -/
noncomputable def sampled_yaw (rotation_variation uy : ℝ) : ℝ :=
  pyUniform (-1.2) 1.2 uy * rotation_variation

/-- One axis of the translation fraction: the raw draw
`(u - 0.5) * translation_variation` pushed through `((2 t) ** 5) / 2`. -/
noncomputable def trans_prime (translation_variation u : ℝ) : ℝ :=
  (2 * ((u - 0.5) * translation_variation)) ^ (5 : ℕ) / 2

/-- Per-axis extent of the rotated source rectangle: the row `(p, q)` of the
2×2 linear block applied to the four corners `(± w/2, ± h/2)`, maximum
minus minimum (`numpy.max(M * corners, axis=1) - numpy.min(...)`). -/
noncomputable def skew_size (p q w h : ℝ) : ℝ :=
  max (max (p * (-w * 0.5) + q * (-h * 0.5)) (p * (w * 0.5) + q * (-h * 0.5)))
      (max (p * (-w * 0.5) + q * (h * 0.5)) (p * (w * 0.5) + q * (h * 0.5))) -
  min (min (p * (-w * 0.5) + q * (-h * 0.5)) (p * (w * 0.5) + q * (-h * 0.5)))
      (min (p * (-w * 0.5) + q * (h * 0.5)) (p * (w * 0.5) + q * (h * 0.5)))

/-- The 2×3 affine transform (linear block and translation column) together
with the out-of-bounds flag returned by `make_affine_transform`. -/
structure AffineResult where
  m00 : ℝ
  m01 : ℝ
  m10 : ℝ
  m11 : ℝ
  t0 : ℝ
  t1 : ℝ
  out_of_bounds : Bool

/-- `make_affine_transform` of `gen2.py`.  `from_shape = (from_h, from_w)`,
`to_shape = (to_h, to_w)`; `us ur up uy utx uty` are the unit random draws
for scale, roll, pitch, yaw b and the two translation axes.  `to_size` and
`from_size` are `(width, height)` columns as in the source. -/
noncomputable def make_affine_transform
    (from_h from_w to_h to_w min_scale max_scale
     scale_variation rotation_variation translation_variation
     us ur up uy utx uty : ℝ) : AffineResult :=
  let scale := sampled_scale min_scale max_scale scale_variation us
  let oob1 : Bool := decide (scale > max_scale ∨ scale < min_scale)
  let roll := sampled_roll rotation_variation ur
  let pitch := sampled_pitch rotation_variation up
  let yaw := sampled_yaw rotation_variation uy
  let R := euler_to_mat yaw pitch roll
  let skx := skew_size (R 0 0) (R 0 1) from_w from_h
  let sky := skew_size (R 1 0) (R 1 1) from_w from_h
  let scale2 := scale * min (to_w / skx) (to_h / sky)
  let tx := trans_prime translation_variation utx
  let ty := trans_prime translation_variation uty
  let oob2 : Bool := oob1 || (decide (tx < -0.80 ∨ ty < -0.80) || decide (tx > 0.80 ∨ ty > 0.80))
  let trans_x := (to_w - skx * scale2) * tx
  let trans_y := (to_h - sky * scale2) * ty
  let m00 := R 0 0 * scale2
  let m01 := R 0 1 * scale2
  let m10 := R 1 0 * scale2
  let m11 := R 1 1 * scale2
  { m00 := m00, m01 := m01, m10 := m10, m11 := m11,
    t0 := trans_x + to_w / 2 - (m00 * (from_w / 2) + m01 * (from_h / 2)),
    t1 := trans_y + to_h / 2 - (m10 * (from_w / 2) + m11 * (from_h / 2)),
    out_of_bounds := oob2 }

/-- Horizontal extent of the four corners `(0,0), (w,0), (0,h), (w,h)` of the
source shape after applying the returned affine transform. -/
noncomputable def bbox_width (r : AffineResult) (w h : ℝ) : ℝ :=
  max (max (r.t0) (r.m00 * w + r.t0)) (max (r.m01 * h + r.t0) (r.m00 * w + r.m01 * h + r.t0)) -
  min (min (r.t0) (r.m00 * w + r.t0)) (min (r.m01 * h + r.t0) (r.m00 * w + r.m01 * h + r.t0))

/-- Vertical extent of the four corners of the source shape after applying
the returned affine transform. -/
noncomputable def bbox_height (r : AffineResult) (w h : ℝ) : ℝ :=
  max (max (r.t1) (r.m10 * w + r.t1)) (max (r.m11 * h + r.t1) (r.m10 * w + r.m11 * h + r.t1)) -
  min (min (r.t1) (r.m10 * w + r.t1)) (min (r.m11 * h + r.t1) (r.m10 * w + r.m11 * h + r.t1))

/-- The locale key of `banned_combinations`: Python `None` or `"se"`. -/
inductive Country where
| noCountry : Country
| se : Country

/-- The `banned_combinations` table of `gen2.py`.  Note two entries of the
source list are Python implicit string concatenations spanning a missing
comma: `"LSD" "LUS"` is the single element `"LSDLUS"` and `"NRP" "NSF"` is
the single element `"NRPNSF"`. -/
def banned_combinations : Country → List String
| Country.noCountry => []
| Country.se =>
  [r"APA", r"ARG", r"ASS", r"BAJ", r"BSS", r"CUC", r"CUK", r"DUM", r"ETA", r"ETT", r"FAG", r"FAN", r"FEG",
   r"FEL", r"FEM", r"FES", r"FET", r"FNL", r"FUC", r"FUK", r"FUL", r"GAM", r"GAY", r"GEJ", r"GEY", r"GHB",
   r"GUD", r"GYN", r"HAT", r"HBT", r"HKH", r"HOR", r"HOT", r"KGB", r"KKK", r"KUC", r"KUF", r"KUG", r"KUK",
   r"KYK", r"LAM", r"LAT", r"LEM", r"LOJ", r"LSDLUS", r"MAD", r"MAO", r"MEN", r"MES", r"MLB", r"MUS",
   r"NAZ", r"NRPNSF", r"NYP", r"OND", r"OOO", r"ORM", r"PAJ", r"PKK", r"PLO", r"PMS", r"PUB", r"RAP",
   r"RAS", r"ROM", r"RPS", r"RUS", r"SEG", r"SEX", r"SJU", r"SOS", r"SPY", r"SUG", r"SUP", r"SUR", r"TBC",
   r"TOA", r"TOK", r"TRE", r"TYP", r"UFO", r"USA", r"WAM", r"WAR", r"WWW", r"XTC", r"XTZ", r"XXL", r"XXX",
   r"ZEX", r"ZOG", r"ZPY", r"ZUG", r"ZUP", r"ZOO"]

/-- Modelled from the spec: `common.LETTERS`, the letter alphabet of the
plate code (`common.py` is not part of the provided sources; the spec fixes
the format `[A-Z]{3} [0-9]{3}`). -/
def LETTERS : List Char :=
  ['A', 'B', 'C', 'D', 'E', 'F', 'G', 'H', 'I', 'J', 'K', 'L', 'M',
   'N', 'O', 'P', 'Q', 'R', 'S', 'T', 'U', 'V', 'W', 'X', 'Y', 'Z']

/-- Modelled from the spec: `common.DIGITS`, the digit alphabet of the
plate code. -/
def DIGITS : List Char :=
  ['0', '1', '2', '3', '4', '5', '6', '7', '8', '9']

/-- Python `random.choice` over a character list, with the random draw
given as an index (reduced modulo the length). -/
def random_choice (l : List Char) (i : ℕ) : Char := l.getD (i % l.length) 'A'

/-- The six index draws of one iteration of the `generate_code` loop. -/
structure CodeDraw where
  l1 : ℕ
  l2 : ℕ
  l3 : ℕ
  d1 : ℕ
  d2 : ℕ
  d3 : ℕ

/-- One candidate code: three letter choices, a space, three digit choices
(`"{}{}{} {}{}{}".format(...)`). -/
def draw_code (d : CodeDraw) : String :=
  String.mk [random_choice LETTERS d.l1, random_choice LETTERS d.l2,
             random_choice LETTERS d.l3, ' ',
             random_choice DIGITS d.d1, random_choice DIGITS d.d2,
             random_choice DIGITS d.d3]

/-- Python substring containment `needle in hay` on strings. -/
def has_substr (needle hay : String) : Bool :=
  hay.toList.tails.any (fun t => needle.toList.isPrefixOf t)

/-- `generate_code` of `gen2.py`: keep drawing until the code contains no
banned substring of the locale.  The stream of random draws is the explicit
list `draws`; the first accepted candidate is returned (`none` models
exhausting the provided randomness without an accepted code). -/
def generate_code (c : Country) (draws : List CodeDraw) : Option String :=
  (draws.map draw_code).find?
    (fun code => !((banned_combinations c).any (fun bad => has_substr bad code)))

/-- The pixelwise alpha-composite `plate * mask + bg * (1 - mask)` of
`generate_im`. -/
def composite (plate mask bg : ℕ → ℕ → ℝ) : ℕ → ℕ → ℝ :=
  fun i j => plate i j * mask i j + bg i j * (1 - mask i j)

/-- `generate_im` of `gen2.py`.  The OpenCV calls `cv2.warpAffine` and
`cv2.resize` are abstract parameters; `plate`/`code` stand for the output
of `generate_plate` and `bg` for the background crop.  The plate mask is
the all-ones image of the plate's shape.  The driver's parameters are the
source's literals: `min_scale=0.6`, `max_scale=1.1`, `scale_variation=1.2`,
`rotation_variation=0.9`, `translation_variation=1.2`. -/
noncomputable def generate_im
    (warpAffine : AffineResult → (ℕ → ℕ → ℝ) → (ℕ → ℕ → ℝ))
    (resize : (ℕ → ℕ → ℝ) → (ℕ → ℕ → ℝ))
    (plate bg : ℕ → ℕ → ℝ) (code : String)
    (plate_h plate_w bg_h bg_w : ℝ)
    (us ur up uy utx uty : ℝ) : (ℕ → ℕ → ℝ) × String × Bool :=
  let r := make_affine_transform plate_h plate_w bg_h bg_w 0.6 1.1 1.2 0.9 1.2
             us ur up uy utx uty
  let warped_plate := warpAffine r plate
  let warped_mask := warpAffine r (fun _ _ => 1)
  let out := composite warped_plate warped_mask bg
  (fun i j => resize out i j / 255, code, !r.out_of_bounds)

lemma euler_to_mat_eq (yaw pitch roll : ℝ) :
    euler_to_mat yaw pitch roll = rotZStd roll * rotXStd pitch * rotYStd yaw := by
  simp only [euler_to_mat, rotZStd, rotXStd, rotYStd, Matrix.mul_assoc]

lemma rotYStd_orth (t : ℝ) : Matrix.transpose (rotYStd t) * rotYStd t = 1 := by
  have ht : Matrix.transpose (rotYStd t) =
      !![Real.cos t, 0, -Real.sin t;
         0, 1, 0;
         Real.sin t, 0, Real.cos t] := by
    ext i j
    fin_cases i <;> fin_cases j <;> rfl
  rw [ht, rotYStd, Matrix.mul_fin_three, Matrix.one_fin_three]
  ext i j
  fin_cases i <;> fin_cases j <;> simp [Matrix.vecHead, Matrix.vecTail] <;>
    nlinarith [Real.sin_sq_add_cos_sq t]

lemma rotXStd_orth (t : ℝ) : Matrix.transpose (rotXStd t) * rotXStd t = 1 := by
  have ht : Matrix.transpose (rotXStd t) =
      !![1, 0, 0;
         0, Real.cos t, Real.sin t;
         0, -Real.sin t, Real.cos t] := by
    ext i j
    fin_cases i <;> fin_cases j <;> rfl
  rw [ht, rotXStd, Matrix.mul_fin_three, Matrix.one_fin_three]
  ext i j
  fin_cases i <;> fin_cases j <;> simp [Matrix.vecHead, Matrix.vecTail] <;>
    nlinarith [Real.sin_sq_add_cos_sq t]

lemma rotZStd_orth (t : ℝ) : Matrix.transpose (rotZStd t) * rotZStd t = 1 := by
  have ht : Matrix.transpose (rotZStd t) =
      !![Real.cos t, Real.sin t, 0;
         -Real.sin t, Real.cos t, 0;
         0, 0, 1] := by
    ext i j
    fin_cases i <;> fin_cases j <;> rfl
  rw [ht, rotZStd, Matrix.mul_fin_three, Matrix.one_fin_three]
  ext i j
  fin_cases i <;> fin_cases j <;> simp [Matrix.vecHead, Matrix.vecTail] <;>
    nlinarith [Real.sin_sq_add_cos_sq t]

lemma rotYStd_det (t : ℝ) : (rotYStd t).det = 1 := by
  rw [rotYStd, Matrix.det_fin_three]
  simp [Matrix.vecHead, Matrix.vecTail]
  nlinarith [Real.sin_sq_add_cos_sq t]

lemma rotXStd_det (t : ℝ) : (rotXStd t).det = 1 := by
  rw [rotXStd, Matrix.det_fin_three]
  simp [Matrix.vecHead, Matrix.vecTail]
  nlinarith [Real.sin_sq_add_cos_sq t]

lemma rotZStd_det (t : ℝ) : (rotZStd t).det = 1 := by
  rw [rotZStd, Matrix.det_fin_three]
  simp [Matrix.vecHead, Matrix.vecTail]
  nlinarith [Real.sin_sq_add_cos_sq t]

/-- C3: for every yaw, pitch and roll, `euler_to_mat` returns exactly the
product Rz(roll) · Rx(pitch) · Ry(yaw) of the standard right-handed axis
rotations, with yaw innermost and roll outermost. -/
theorem c3_euler_to_mat_is_rz_rx_ry (yaw pitch roll : ℝ) :
    euler_to_mat yaw pitch roll = rotZStd roll * rotXStd pitch * rotYStd yaw :=
  euler_to_mat_eq yaw pitch roll

/-- C4: for every angle triple, the matrix returned by `euler_to_mat` is
orthogonal (its transpose times itself is the identity) and has
determinant 1. -/
theorem c4_euler_to_mat_orthogonal_det_one (yaw pitch roll : ℝ) :
    Matrix.transpose (euler_to_mat yaw pitch roll) * euler_to_mat yaw pitch roll = 1 ∧
    (euler_to_mat yaw pitch roll).det = 1 := by
  constructor
  · rw [euler_to_mat_eq]
    rw [Matrix.transpose_mul, Matrix.transpose_mul]
    calc Matrix.transpose (rotYStd yaw) *
          (Matrix.transpose (rotXStd pitch) * Matrix.transpose (rotZStd roll)) *
          (rotZStd roll * rotXStd pitch * rotYStd yaw)
        = Matrix.transpose (rotYStd yaw) *
          (Matrix.transpose (rotXStd pitch) *
            (Matrix.transpose (rotZStd roll) * rotZStd roll) * rotXStd pitch) *
          rotYStd yaw := by
          simp only [Matrix.mul_assoc]
      _ = 1 := by
          rw [rotZStd_orth, Matrix.mul_one, rotXStd_orth, Matrix.mul_one, rotYStd_orth]
  · rw [euler_to_mat_eq, Matrix.det_mul, Matrix.det_mul,
        rotZStd_det, rotXStd_det, rotYStd_det]
    norm_num

lemma maf_oob (from_h from_w to_h to_w mn mx sv rv tv us ur up uy utx uty : ℝ) :
    (make_affine_transform from_h from_w to_h to_w mn mx sv rv tv
        us ur up uy utx uty).out_of_bounds =
      (decide (sampled_scale mn mx sv us > mx ∨ sampled_scale mn mx sv us < mn) ||
       (decide (trans_prime tv utx < -0.80 ∨ trans_prime tv uty < -0.80) ||
        decide (trans_prime tv utx > 0.80 ∨ trans_prime tv uty > 0.80))) := rfl

lemma maf_m00 (from_h from_w to_h to_w mn mx sv rv tv us ur up uy utx uty : ℝ) :
    (make_affine_transform from_h from_w to_h to_w mn mx sv rv tv
        us ur up uy utx uty).m00 =
      euler_to_mat (sampled_yaw rv uy) (sampled_pitch rv up) (sampled_roll rv ur) 0 0 *
        (sampled_scale mn mx sv us *
          min (to_w / skew_size
                 (euler_to_mat (sampled_yaw rv uy) (sampled_pitch rv up) (sampled_roll rv ur) 0 0)
                 (euler_to_mat (sampled_yaw rv uy) (sampled_pitch rv up) (sampled_roll rv ur) 0 1)
                 from_w from_h)
              (to_h / skew_size
                 (euler_to_mat (sampled_yaw rv uy) (sampled_pitch rv up) (sampled_roll rv ur) 1 0)
                 (euler_to_mat (sampled_yaw rv uy) (sampled_pitch rv up) (sampled_roll rv ur) 1 1)
                 from_w from_h)) := rfl

lemma maf_m01 (from_h from_w to_h to_w mn mx sv rv tv us ur up uy utx uty : ℝ) :
    (make_affine_transform from_h from_w to_h to_w mn mx sv rv tv
        us ur up uy utx uty).m01 =
      euler_to_mat (sampled_yaw rv uy) (sampled_pitch rv up) (sampled_roll rv ur) 0 1 *
        (sampled_scale mn mx sv us *
          min (to_w / skew_size
                 (euler_to_mat (sampled_yaw rv uy) (sampled_pitch rv up) (sampled_roll rv ur) 0 0)
                 (euler_to_mat (sampled_yaw rv uy) (sampled_pitch rv up) (sampled_roll rv ur) 0 1)
                 from_w from_h)
              (to_h / skew_size
                 (euler_to_mat (sampled_yaw rv uy) (sampled_pitch rv up) (sampled_roll rv ur) 1 0)
                 (euler_to_mat (sampled_yaw rv uy) (sampled_pitch rv up) (sampled_roll rv ur) 1 1)
                 from_w from_h)) := rfl

lemma maf_m10 (from_h from_w to_h to_w mn mx sv rv tv us ur up uy utx uty : ℝ) :
    (make_affine_transform from_h from_w to_h to_w mn mx sv rv tv
        us ur up uy utx uty).m10 =
      euler_to_mat (sampled_yaw rv uy) (sampled_pitch rv up) (sampled_roll rv ur) 1 0 *
        (sampled_scale mn mx sv us *
          min (to_w / skew_size
                 (euler_to_mat (sampled_yaw rv uy) (sampled_pitch rv up) (sampled_roll rv ur) 0 0)
                 (euler_to_mat (sampled_yaw rv uy) (sampled_pitch rv up) (sampled_roll rv ur) 0 1)
                 from_w from_h)
              (to_h / skew_size
                 (euler_to_mat (sampled_yaw rv uy) (sampled_pitch rv up) (sampled_roll rv ur) 1 0)
                 (euler_to_mat (sampled_yaw rv uy) (sampled_pitch rv up) (sampled_roll rv ur) 1 1)
                 from_w from_h)) := rfl

lemma maf_m11 (from_h from_w to_h to_w mn mx sv rv tv us ur up uy utx uty : ℝ) :
    (make_affine_transform from_h from_w to_h to_w mn mx sv rv tv
        us ur up uy utx uty).m11 =
      euler_to_mat (sampled_yaw rv uy) (sampled_pitch rv up) (sampled_roll rv ur) 1 1 *
        (sampled_scale mn mx sv us *
          min (to_w / skew_size
                 (euler_to_mat (sampled_yaw rv uy) (sampled_pitch rv up) (sampled_roll rv ur) 0 0)
                 (euler_to_mat (sampled_yaw rv uy) (sampled_pitch rv up) (sampled_roll rv ur) 0 1)
                 from_w from_h)
              (to_h / skew_size
                 (euler_to_mat (sampled_yaw rv uy) (sampled_pitch rv up) (sampled_roll rv ur) 1 0)
                 (euler_to_mat (sampled_yaw rv uy) (sampled_pitch rv up) (sampled_roll rv ur) 1 1)
                 from_w from_h)) := rfl

lemma abs_gt_iff (c x : ℝ) : c < |x| ↔ x < -c ∨ x > c := by
  rw [lt_abs, or_comm, lt_neg]

/-- C2: `make_affine_transform` flags out-of-bounds exactly when the sampled
scale lies strictly outside the closed interval from `min_scale` to
`max_scale`, or the translation fraction after the non-linear transform
has magnitude strictly above 0.80 in some axis; in particular a sampled
scale exactly equal to `max_scale` (with in-range translation) is not
flagged. -/
theorem c2_out_of_bounds_iff
    (from_h from_w to_h to_w mn mx sv rv tv us ur up uy utx uty : ℝ) :
    ((make_affine_transform from_h from_w to_h to_w mn mx sv rv tv
        us ur up uy utx uty).out_of_bounds = true ↔
      (sampled_scale mn mx sv us < mn ∨ sampled_scale mn mx sv us > mx ∨
       |trans_prime tv utx| > 0.80 ∨ |trans_prime tv uty| > 0.80)) ∧
    (sampled_scale mn mx sv us = mx → mn ≤ mx →
      |trans_prime tv utx| ≤ 0.80 → |trans_prime tv uty| ≤ 0.80 →
      (make_affine_transform from_h from_w to_h to_w mn mx sv rv tv
        us ur up uy utx uty).out_of_bounds = false) := by
  have hiff : (make_affine_transform from_h from_w to_h to_w mn mx sv rv tv
      us ur up uy utx uty).out_of_bounds = true ↔
      (sampled_scale mn mx sv us < mn ∨ sampled_scale mn mx sv us > mx ∨
       |trans_prime tv utx| > 0.80 ∨ |trans_prime tv uty| > 0.80) := by
    rw [maf_oob]
    simp only [Bool.or_eq_true, decide_eq_true_eq, gt_iff_lt,
               abs_gt_iff 0.80 (trans_prime tv utx),
               abs_gt_iff 0.80 (trans_prime tv uty)]
    tauto
  refine ⟨hiff, fun hs hle htx hty => ?_⟩
  rw [Bool.eq_false_iff]
  intro hoob
  rcases hiff.mp hoob with h | h | h | h
  · rw [hs] at h; linarith
  · rw [hs] at h; exact absurd h (lt_irrefl mx)
  · linarith
  · linarith

/-- Witness for C2 at a concrete input: `min_scale = 0.6`, `max_scale = 1.1`,
`scale_variation = 1`, `us = 1` puts the sampled scale exactly at
`max_scale`, the centred translation draw gives translation fraction 0,
and the call is not flagged out-of-bounds. -/
theorem c2_witness :
    (make_affine_transform 10 20 100 200 0.6 1.1 1 1 1
      1 0 0 0 0.5 0.5).out_of_bounds = false := by
  have h := (c2_out_of_bounds_iff 10 20 100 200 0.6 1.1 1 1 1 1 0 0 0 0.5 0.5).2
  apply h
  · show sampled_scale 0.6 1.1 1 1 = 1.1
    rw [sampled_scale, pyUniform]
    norm_num
  · norm_num
  · show |trans_prime 1 0.5| ≤ 0.80
    rw [trans_prime]
    norm_num
  · show |trans_prime 1 0.5| ≤ 0.80
    rw [trans_prime]
    norm_num

lemma trans_prime_bound (tv u : ℝ) (htv0 : 0 ≤ tv) (htv1 : tv ≤ 1)
    (h0 : 0 ≤ u) (h1 : u ≤ 1) : |trans_prime tv u| ≤ 1 / 2 := by
  rw [trans_prime, abs_div]
  have hb : |2 * ((u - 0.5) * tv)| ≤ 1 := by
    rw [abs_mul, abs_mul, abs_of_nonneg htv0]
    have h5 : |u - 0.5| ≤ 0.5 := abs_le.mpr ⟨by linarith, by linarith⟩
    have h2 : |(2:ℝ)| = 2 := by norm_num
    rw [h2]
    nlinarith [abs_nonneg (u - 0.5)]
  have habs : |(2 * ((u - 0.5) * tv)) ^ (5:ℕ)| ≤ 1 := by
    rw [abs_pow]
    exact pow_le_one₀ (abs_nonneg _) hb
  have h2 : |(2:ℝ)| = 2 := by norm_num
  rw [h2]
  linarith

/-- C6: with `scale_variation = 0` and `rotation_variation = 0` (the other
variation left at its default 1), the sampled scale is exactly the midpoint
of the scale interval, all three sampled angles are 0, and the call is not
flagged out-of-bounds whenever the midpoint lies within the interval. -/
theorem c6_zero_variation
    (from_h from_w to_h to_w mn mx us ur up uy utx uty : ℝ)
    (hmn : mn ≤ (mn + mx) / 2) (hmx : (mn + mx) / 2 ≤ mx)
    (hutx0 : 0 ≤ utx) (hutx1 : utx ≤ 1) (huty0 : 0 ≤ uty) (huty1 : uty ≤ 1) :
    sampled_scale mn mx 0 us = (mn + mx) / 2 ∧
    sampled_roll 0 ur = 0 ∧ sampled_pitch 0 up = 0 ∧ sampled_yaw 0 uy = 0 ∧
    (make_affine_transform from_h from_w to_h to_w mn mx 0 0 1
      us ur up uy utx uty).out_of_bounds = false := by
  have hs : sampled_scale mn mx 0 us = (mn + mx) / 2 := by
    rw [sampled_scale, pyUniform]; ring
  refine ⟨hs, by rw [sampled_roll]; ring, by rw [sampled_pitch]; ring,
          by rw [sampled_yaw]; ring, ?_⟩
  rw [maf_oob]
  have htx := trans_prime_bound 1 utx (by norm_num) (by norm_num) hutx0 hutx1
  have hty := trans_prime_bound 1 uty (by norm_num) (by norm_num) huty0 huty1
  rw [abs_le] at htx hty
  simp only [Bool.or_eq_false_iff, decide_eq_false_iff_not, not_or, not_lt]
  refine ⟨⟨?_, ?_⟩, ⟨?_, ?_⟩, ?_, ?_⟩
  · rw [hs]; exact hmx
  · rw [hs]; exact hmn
  · linarith [htx.1]
  · linarith [hty.1]
  · linarith [htx.2]
  · linarith [hty.2]

/-- Witness for C6 at a concrete input: `min_scale = 0.6`, `max_scale = 1.1`
and arbitrary in-range random draws. -/
theorem c6_witness :
    sampled_scale 0.6 1.1 0 0.3 = (0.6 + 1.1) / 2 ∧
    sampled_roll 0 0.7 = 0 ∧ sampled_pitch 0 0.2 = 0 ∧ sampled_yaw 0 0.9 = 0 ∧
    (make_affine_transform 10 20 100 200 0.6 1.1 0 0 1
      0.3 0.7 0.2 0.9 0.4 0.6).out_of_bounds = false :=
  c6_zero_variation 10 20 100 200 0.6 1.1 0.3 0.7 0.2 0.9 0.4 0.6
    (by norm_num) (by norm_num) (by norm_num) (by norm_num) (by norm_num) (by norm_num)

/-- C10: whenever `translation_variation` lies in the unit interval (with
unit random draws), the translation fraction after the non-linear transform
has magnitude at most 1/2 in each axis, so the translation out-of-bounds
branch (threshold 0.80) cannot fire and the flag is exactly the scale
condition. -/
theorem c10_translation_branch_unreachable
    (from_h from_w to_h to_w mn mx sv rv tv us ur up uy utx uty : ℝ)
    (htv0 : 0 ≤ tv) (htv1 : tv ≤ 1)
    (hutx0 : 0 ≤ utx) (hutx1 : utx ≤ 1) (huty0 : 0 ≤ uty) (huty1 : uty ≤ 1) :
    |trans_prime tv utx| ≤ 1 / 2 ∧ |trans_prime tv uty| ≤ 1 / 2 ∧
    (make_affine_transform from_h from_w to_h to_w mn mx sv rv tv
      us ur up uy utx uty).out_of_bounds =
      decide (sampled_scale mn mx sv us > mx ∨ sampled_scale mn mx sv us < mn) := by
  have htx := trans_prime_bound tv utx htv0 htv1 hutx0 hutx1
  have hty := trans_prime_bound tv uty htv0 htv1 huty0 huty1
  refine ⟨htx, hty, ?_⟩
  rw [maf_oob]
  rw [abs_le] at htx hty
  have hB : decide (trans_prime tv utx < -0.80 ∨ trans_prime tv uty < -0.80) = false := by
    simp only [decide_eq_false_iff_not, not_or, not_lt]
    constructor <;> linarith
  have hC : decide (trans_prime tv utx > 0.80 ∨ trans_prime tv uty > 0.80) = false := by
    simp only [decide_eq_false_iff_not, not_or, not_lt]
    constructor <;> linarith
  rw [hB, hC]
  simp

/-- Witness for C10 at a concrete input: `translation_variation = 1` (so at
the boundary of the claim) with extreme unit draws 0 and 1. -/
theorem c10_witness :
    |trans_prime 1 0| ≤ 1 / 2 ∧ |trans_prime 1 1| ≤ 1 / 2 ∧
    (make_affine_transform 10 20 100 200 0.6 1.1 1 1 1
      0.5 0 0 0 0 1).out_of_bounds =
      decide (sampled_scale 0.6 1.1 1 0.5 > 1.1 ∨ sampled_scale 0.6 1.1 1 0.5 < 0.6) :=
  c10_translation_branch_unreachable 10 20 100 200 0.6 1.1 1 1 1 0.5 0 0 0 0 1
    (by norm_num) (by norm_num) (by norm_num) (by norm_num) (by norm_num) (by norm_num)

lemma four_corner_spread_tr (a b t : ℝ) :
    max (max t (a + t)) (max (b + t) (a + b + t)) -
    min (min t (a + t)) (min (b + t) (a + b + t)) = |a| + |b| := by
  rcases le_total 0 a with ha | ha <;> rcases le_total 0 b with hb | hb
  · rw [abs_of_nonneg ha, abs_of_nonneg hb,
        max_eq_right (by linarith : t ≤ a + t),
        max_eq_right (by linarith : b + t ≤ a + b + t),
        max_eq_right (by linarith : a + t ≤ a + b + t),
        min_eq_left (by linarith : t ≤ a + t),
        min_eq_left (by linarith : b + t ≤ a + b + t),
        min_eq_left (by linarith : t ≤ b + t)]
    ring
  · rw [abs_of_nonneg ha, abs_of_nonpos hb,
        max_eq_right (by linarith : t ≤ a + t),
        max_eq_right (by linarith : b + t ≤ a + b + t),
        max_eq_left (by linarith : a + b + t ≤ a + t),
        min_eq_left (by linarith : t ≤ a + t),
        min_eq_left (by linarith : b + t ≤ a + b + t),
        min_eq_right (by linarith : b + t ≤ t)]
    ring
  · rw [abs_of_nonpos ha, abs_of_nonneg hb,
        max_eq_left (by linarith : a + t ≤ t),
        max_eq_left (by linarith : a + b + t ≤ b + t),
        max_eq_right (by linarith : t ≤ b + t),
        min_eq_right (by linarith : a + t ≤ t),
        min_eq_right (by linarith : a + b + t ≤ b + t),
        min_eq_left (by linarith : a + t ≤ a + b + t)]
    ring
  · rw [abs_of_nonpos ha, abs_of_nonpos hb,
        max_eq_left (by linarith : a + t ≤ t),
        max_eq_left (by linarith : a + b + t ≤ b + t),
        max_eq_left (by linarith : b + t ≤ t),
        min_eq_right (by linarith : a + t ≤ t),
        min_eq_right (by linarith : a + b + t ≤ b + t),
        min_eq_right (by linarith : a + b + t ≤ a + t)]
    ring

lemma bbox_width_eq (r : AffineResult) (w h : ℝ) :
    bbox_width r w h = |r.m00 * w| + |r.m01 * h| := by
  rw [bbox_width]
  exact four_corner_spread_tr (r.m00 * w) (r.m01 * h) r.t0

lemma bbox_height_eq (r : AffineResult) (w h : ℝ) :
    bbox_height r w h = |r.m10 * w| + |r.m11 * h| := by
  rw [bbox_height]
  exact four_corner_spread_tr (r.m10 * w) (r.m11 * h) r.t1

lemma skew_size_eq (p q w h : ℝ) (hw : 0 ≤ w) (hh : 0 ≤ h) :
    skew_size p q w h = |p| * w + |q| * h := by
  have h2 : p * (w * 0.5) + q * (-h * 0.5) =
      p * w + (p * (-w * 0.5) + q * (-h * 0.5)) := by ring
  have h3 : p * (-w * 0.5) + q * (h * 0.5) =
      q * h + (p * (-w * 0.5) + q * (-h * 0.5)) := by ring
  have h4 : p * (w * 0.5) + q * (h * 0.5) =
      p * w + q * h + (p * (-w * 0.5) + q * (-h * 0.5)) := by ring
  rw [skew_size, h2, h3, h4,
      four_corner_spread_tr (p * w) (q * h) (p * (-w * 0.5) + q * (-h * 0.5)),
      abs_mul, abs_mul, abs_of_nonneg hw, abs_of_nonneg hh]

lemma bbox_core (E0 E1 w h tw s m : ℝ) (hw : 0 ≤ w) (hh : 0 ≤ h)
    (hs : 0 ≤ s) (hm0 : 0 ≤ m)
    (hsk : 0 < skew_size E0 E1 w h) (hmle : m ≤ tw / skew_size E0 E1 w h) :
    |E0 * (s * m) * w| + |E1 * (s * m) * h| ≤ s * tw := by
  have hsm : 0 ≤ s * m := mul_nonneg hs hm0
  have h1 : |E0 * (s * m) * w| + |E1 * (s * m) * h| =
      skew_size E0 E1 w h * (s * m) := by
    rw [skew_size_eq E0 E1 w h hw hh, abs_mul, abs_mul, abs_mul, abs_mul,
        abs_mul, abs_mul, abs_of_nonneg hs, abs_of_nonneg hm0,
        abs_of_nonneg hw, abs_of_nonneg hh]
    ring
  rw [h1]
  have h2 : skew_size E0 E1 w h * (s * m) ≤
      skew_size E0 E1 w h * (s * (tw / skew_size E0 E1 w h)) :=
    mul_le_mul_of_nonneg_left (mul_le_mul_of_nonneg_left hmle hs) hsk.le
  have hne : skew_size E0 E1 w h ≠ 0 := ne_of_gt hsk
  have h3 : skew_size E0 E1 w h * (s * (tw / skew_size E0 E1 w h)) = s * tw := by
    field_simp
  linarith

/-- C1 (amended): for calls that return `out_of_bounds = false` (with a
positive lower scale bound, nonnegative shapes and nondegenerate skewed
sizes), the axis-aligned bounding box of the four transformed source
corners fits within the target canvas scaled by the sampled scale:
width ≤ scale · target width and height ≤ scale · target height; hence it
fits within the target canvas itself whenever the sampled scale is at
most 1.  The unamended claim fails because `out_of_bounds = false` permits
sampled scales above 1 (the driver uses `max_scale = 1.1`). -/
theorem c1_amended_bbox_bound
    (from_h from_w to_h to_w mn mx sv rv tv us ur up uy utx uty : ℝ)
    (hfw : 0 ≤ from_w) (hfh : 0 ≤ from_h) (htw : 0 ≤ to_w) (hth : 0 ≤ to_h)
    (hmn : 0 < mn)
    (hskx : 0 < skew_size
        (euler_to_mat (sampled_yaw rv uy) (sampled_pitch rv up) (sampled_roll rv ur) 0 0)
        (euler_to_mat (sampled_yaw rv uy) (sampled_pitch rv up) (sampled_roll rv ur) 0 1)
        from_w from_h)
    (hsky : 0 < skew_size
        (euler_to_mat (sampled_yaw rv uy) (sampled_pitch rv up) (sampled_roll rv ur) 1 0)
        (euler_to_mat (sampled_yaw rv uy) (sampled_pitch rv up) (sampled_roll rv ur) 1 1)
        from_w from_h)
    (hoob : (make_affine_transform from_h from_w to_h to_w mn mx sv rv tv
        us ur up uy utx uty).out_of_bounds = false) :
    bbox_width (make_affine_transform from_h from_w to_h to_w mn mx sv rv tv
        us ur up uy utx uty) from_w from_h ≤ sampled_scale mn mx sv us * to_w ∧
    bbox_height (make_affine_transform from_h from_w to_h to_w mn mx sv rv tv
        us ur up uy utx uty) from_w from_h ≤ sampled_scale mn mx sv us * to_h ∧
    (sampled_scale mn mx sv us ≤ 1 →
      bbox_width (make_affine_transform from_h from_w to_h to_w mn mx sv rv tv
        us ur up uy utx uty) from_w from_h ≤ to_w ∧
      bbox_height (make_affine_transform from_h from_w to_h to_w mn mx sv rv tv
        us ur up uy utx uty) from_w from_h ≤ to_h) := by
  rw [maf_oob] at hoob
  simp only [Bool.or_eq_false_iff, decide_eq_false_iff_not, not_or, not_lt] at hoob
  have hs0 : 0 ≤ sampled_scale mn mx sv us := le_trans hmn.le hoob.1.2
  have hw1 : bbox_width (make_affine_transform from_h from_w to_h to_w mn mx sv rv tv
      us ur up uy utx uty) from_w from_h ≤ sampled_scale mn mx sv us * to_w := by
    rw [bbox_width_eq, maf_m00, maf_m01]
    exact bbox_core _ _ _ _ _ _ _ hfw hfh hs0
      (le_min (div_nonneg htw hskx.le) (div_nonneg hth hsky.le)) hskx (min_le_left _ _)
  have hh1 : bbox_height (make_affine_transform from_h from_w to_h to_w mn mx sv rv tv
      us ur up uy utx uty) from_w from_h ≤ sampled_scale mn mx sv us * to_h := by
    rw [bbox_height_eq, maf_m10, maf_m11]
    exact bbox_core _ _ _ _ _ _ _ hfw hfh hs0
      (le_min (div_nonneg htw hskx.le) (div_nonneg hth hsky.le)) hsky (min_le_right _ _)
  refine ⟨hw1, hh1, fun hs1 => ⟨?_, ?_⟩⟩
  · nlinarith [hw1]
  · nlinarith [hh1]

lemma euler_to_mat_zero : euler_to_mat 0 0 0 = 1 := by
  rw [euler_to_mat_eq, rotZStd, rotXStd, rotYStd]
  ext i j
  fin_cases i <;> fin_cases j <;>
    simp [Matrix.mul_apply, Fin.sum_univ_three, Matrix.one_apply,
          Matrix.vecHead, Matrix.vecTail]

lemma sampled_roll_zero (ur : ℝ) : sampled_roll 0 ur = 0 := by
  rw [sampled_roll]; ring

lemma sampled_pitch_zero (up : ℝ) : sampled_pitch 0 up = 0 := by
  rw [sampled_pitch]; ring

lemma sampled_yaw_zero (uy : ℝ) : sampled_yaw 0 uy = 0 := by
  rw [sampled_yaw]; ring

lemma sampled_rot_zero (ur up uy : ℝ) :
    euler_to_mat (sampled_yaw 0 uy) (sampled_pitch 0 up) (sampled_roll 0 ur) = 1 := by
  rw [sampled_yaw_zero, sampled_pitch_zero, sampled_roll_zero, euler_to_mat_zero]

lemma skew_size_one_zero : skew_size (1:ℝ) 0 1 1 = 1 := by
  rw [skew_size_eq 1 0 1 1 (by norm_num) (by norm_num)]
  norm_num

lemma skew_size_zero_one : skew_size (0:ℝ) 1 1 1 = 1 := by
  rw [skew_size_eq 0 1 1 1 (by norm_num) (by norm_num)]
  norm_num

/-- C1 counterexample: a call with `min_scale = max_scale = 1.1` on a 1×1
source and a 100×100 canvas returns `out_of_bounds = false`, yet the
bounding box of the transformed source corners is 110 wide — wider than
the 100-pixel target canvas even with a tolerance of 1. -/
theorem c1_counterexample :
    (make_affine_transform 1 1 100 100 1.1 1.1 0 0 0
      1 0 0 0 0.5 0.5).out_of_bounds = false ∧
    bbox_width (make_affine_transform 1 1 100 100 1.1 1.1 0 0 0
      1 0 0 0 0.5 0.5) 1 1 = 110 ∧
    ¬(bbox_width (make_affine_transform 1 1 100 100 1.1 1.1 0 0 0
      1 0 0 0 0.5 0.5) 1 1 ≤ 100 + 1) := by
  have hs : sampled_scale 1.1 1.1 0 1 = 1.1 := by
    rw [sampled_scale, pyUniform]; norm_num
  have ht : trans_prime 0 0.5 = 0 := by
    rw [trans_prime]; norm_num
  have hE := sampled_rot_zero 0 0 0
  have hbw : bbox_width (make_affine_transform 1 1 100 100 1.1 1.1 0 0 0
      1 0 0 0 0.5 0.5) 1 1 = 110 := by
    rw [bbox_width_eq, maf_m00, maf_m01, hE, hs]
    simp only [Matrix.one_apply, if_pos rfl]
    norm_num [skew_size_one_zero, skew_size_zero_one, abs_of_nonneg]
  refine ⟨?_, hbw, ?_⟩
  · rw [maf_oob, hs, ht]
    simp only [Bool.or_eq_false_iff, decide_eq_false_iff_not, not_or, not_lt]
    norm_num
  · rw [hbw]
    norm_num

/-- Witness for the amended C1 at a concrete input: 1×1 source, 100×100
canvas, `min_scale = max_scale = 0.9`, zero rotation and translation
variation; all hypotheses hold and the scale midpoint is below 1. -/
theorem c1_amended_witness :
    bbox_width (make_affine_transform 1 1 100 100 0.9 0.9 0 0 0
      1 0 0 0 0.5 0.5) 1 1 ≤ sampled_scale 0.9 0.9 0 1 * 100 ∧
    bbox_height (make_affine_transform 1 1 100 100 0.9 0.9 0 0 0
      1 0 0 0 0.5 0.5) 1 1 ≤ sampled_scale 0.9 0.9 0 1 * 100 ∧
    (sampled_scale 0.9 0.9 0 1 ≤ 1 →
      bbox_width (make_affine_transform 1 1 100 100 0.9 0.9 0 0 0
        1 0 0 0 0.5 0.5) 1 1 ≤ 100 ∧
      bbox_height (make_affine_transform 1 1 100 100 0.9 0.9 0 0 0
        1 0 0 0 0.5 0.5) 1 1 ≤ 100) :=
  c1_amended_bbox_bound 1 1 100 100 0.9 0.9 0 0 0 1 0 0 0 0.5 0.5
    (by norm_num) (by norm_num) (by norm_num) (by norm_num) (by norm_num)
    (by rw [sampled_rot_zero]
        simp only [Matrix.one_apply, if_pos rfl]
        norm_num [skew_size_one_zero, skew_size_zero_one])
    (by rw [sampled_rot_zero]
        simp only [Matrix.one_apply, if_pos rfl]
        norm_num [skew_size_one_zero, skew_size_zero_one])
    (by rw [maf_oob]
        simp only [Bool.or_eq_false_iff, decide_eq_false_iff_not, not_or, not_lt]
        norm_num [sampled_scale, pyUniform, trans_prime])

lemma random_choice_mem (l : List Char) (i : ℕ) (hl : l ≠ []) :
    random_choice l i ∈ l := by
  rw [random_choice]
  have hlen : 0 < l.length := List.length_pos.mpr hl
  have hmod : i % l.length < l.length := Nat.mod_lt _ hlen
  rw [List.getD_eq_getElem l 'A' hmod]
  exact List.getElem_mem hmod

/-- C5: every code returned by `generate_code` contains no banned substring
of the locale's denylist; matching is substring-based, case-sensitive, and
checked against the code including the internal space. -/
theorem c5_no_banned_substring (c : Country) (draws : List CodeDraw) (code : String)
    (h : generate_code c draws = some code) :
    ∀ bad ∈ banned_combinations c, has_substr bad code = false := by
  intro bad hbad
  rw [generate_code] at h
  have hp := List.find?_some h
  simp only [Bool.not_eq_true', List.any_eq_false] at hp
  exact Bool.not_eq_true _ |>.mp (hp bad hbad)

/-- Witness for C5 at a concrete input: for locale `"se"` the draw
`AAA 000` is accepted on the first iteration and contains no banned
substring (here checked for the first denylist entry). -/
theorem c5_witness :
    has_substr r"APA" (String.mk ['A', 'A', 'A', ' ', '0', '0', '0']) = false :=
  c5_no_banned_substring Country.se [⟨0, 0, 0, 0, 0, 0⟩]
    (String.mk ['A', 'A', 'A', ' ', '0', '0', '0']) (by decide) r"APA" (by decide)

/-- C7: `generate_code` returns a code of exactly 3 letters, one space and
3 digits drawn from the configured alphabets, and with locale `None`
(empty denylist) the first generated candidate is accepted, so the
rejection loop runs exactly one iteration. -/
theorem c7_generate_code_one_iteration (d : CodeDraw) (rest : List CodeDraw) :
    generate_code Country.noCountry (d :: rest) = some (draw_code d) ∧
    (draw_code d).length = 7 ∧
    ∃ l1 l2 l3 g1 g2 g3 : Char,
      l1 ∈ LETTERS ∧ l2 ∈ LETTERS ∧ l3 ∈ LETTERS ∧
      g1 ∈ DIGITS ∧ g2 ∈ DIGITS ∧ g3 ∈ DIGITS ∧
      draw_code d = String.mk [l1, l2, l3, ' ', g1, g2, g3] := by
  refine ⟨rfl, rfl, ?_⟩
  exact ⟨random_choice LETTERS d.l1, random_choice LETTERS d.l2,
         random_choice LETTERS d.l3, random_choice DIGITS d.d1,
         random_choice DIGITS d.d2, random_choice DIGITS d.d3,
         random_choice_mem _ _ (by decide), random_choice_mem _ _ (by decide),
         random_choice_mem _ _ (by decide), random_choice_mem _ _ (by decide),
         random_choice_mem _ _ (by decide), random_choice_mem _ _ (by decide), rfl⟩

/-- C8: the pre-resize composite is computed pixelwise as
`plate·mask + background·(1−mask)`; with an all-zero mask it equals the
background unchanged and with an all-ones mask it equals the warped plate
unchanged. -/
theorem c8_composite_pixelwise :
    (∀ plate mask bg : ℕ → ℕ → ℝ, ∀ i j,
       composite plate mask bg i j = plate i j * mask i j + bg i j * (1 - mask i j)) ∧
    (∀ plate bg : ℕ → ℕ → ℝ, composite plate (fun _ _ => 0) bg = bg) ∧
    (∀ plate bg : ℕ → ℕ → ℝ, composite plate (fun _ _ => 1) bg = plate) := by
  refine ⟨fun p m b i j => rfl, fun p b => ?_, fun p b => ?_⟩
  · funext i j
    simp only [composite]
    ring
  · funext i j
    simp only [composite]
    ring

/-- C9: every triple produced by `generate_im` has validity equal to the
negation of the out-of-bounds flag of its `make_affine_transform` call with
the driver's parameters, carries the code unchanged, and is produced
unconditionally (the full output is the composite pipeline applied to the
inputs — an out-of-bounds condition never aborts generation). -/
theorem c9_validity_is_not_out_of_bounds
    (warpAffine : AffineResult → (ℕ → ℕ → ℝ) → (ℕ → ℕ → ℝ))
    (resize : (ℕ → ℕ → ℝ) → (ℕ → ℕ → ℝ))
    (plate bg : ℕ → ℕ → ℝ) (code : String)
    (plate_h plate_w bg_h bg_w us ur up uy utx uty : ℝ) :
    (generate_im warpAffine resize plate bg code plate_h plate_w bg_h bg_w
       us ur up uy utx uty).2.2 =
      !(make_affine_transform plate_h plate_w bg_h bg_w 0.6 1.1 1.2 0.9 1.2
          us ur up uy utx uty).out_of_bounds ∧
    generate_im warpAffine resize plate bg code plate_h plate_w bg_h bg_w
        us ur up uy utx uty =
      (fun i j => resize
          (composite
            (warpAffine (make_affine_transform plate_h plate_w bg_h bg_w
                0.6 1.1 1.2 0.9 1.2 us ur up uy utx uty) plate)
            (warpAffine (make_affine_transform plate_h plate_w bg_h bg_w
                0.6 1.1 1.2 0.9 1.2 us ur up uy utx uty) (fun _ _ => 1))
            bg) i j / 255,
       code,
       !(make_affine_transform plate_h plate_w bg_h bg_w 0.6 1.1 1.2 0.9 1.2
          us ur up uy utx uty).out_of_bounds) :=
  ⟨rfl, rfl⟩
